import Mathlib

/-!
# tjbot-sports-buddy: `run.js`

A shallow embedding of the pure parts of `src/run.js` (phone-number parsing,
standings lookup, schedule merge, upcoming-schedule listing, the readiness
barrier and the dialog stage checks), followed by the properties proved
about them.

Conventions of the embedding
* a JavaScript string is a Lean `String`; its characters are `String.data`
  (the strings handled here are ASCII, where UTF-16 units and code points
  coincide);
* `undefined` as a returned value is `JsVal.undefined`; an absent global or
  property is `Option.none`;
* a call that can throw or loop returns an `Outcome`;
* the `Date` object of a loop is a parameter `cal : Nat → String`: `cal n` is
  `date.toJSON().substring(5,10)` after the `n`-th
  `date.setDate(date.getDate() + 1)` on the value of `getCurrentDate()`.
-/

namespace SportsBuddy

/-! ## JavaScript values and string primitives -/

/-- A value a function of `run.js` hands back: a string or `undefined`. -/
inductive JsVal where
  | undefined
  | str (s : String)
deriving DecidableEq, Repr

/-- How a call ends: it returns, it throws, or the model's fuel ran out while
the loop was still going. -/
inductive Outcome (α : Type) where
  | returned (v : α)
  | threw (err : String)
  | running
deriving DecidableEq, Repr

/-- The call `s.substring(a, b)` for `a ≤ b`: the characters at positions `a ≤ i < b`,
clipped to the length of `s`. -/
def substring (s : String) (a b : Nat) : String :=
  ⟨(s.data.take b).drop a⟩

/-- The method `String.prototype.indexOf` on character lists: the least position at which
`pat` occurs in the list, `-1` when it occurs nowhere. -/
def indexOfChars (pat : List Char) : List Char → Int
  | [] => if pat = [] then 0 else -1
  | c :: t =>
    if pat.isPrefixOf (c :: t) then 0
    else
      let r := indexOfChars pat t
      if r = -1 then -1 else r + 1

/-- The call `s.indexOf(pat)`. -/
def indexOf (s pat : String) : Int :=
  indexOfChars pat.data s.data

/-- The method `String.prototype.split(sep)` for a one-character separator, on character
lists: every occurrence of `sep` ends a token, so `n` separators give `n + 1`
tokens, some of them possibly empty. -/
def splitChars (sep : Char) : List Char → List (List Char)
  | [] => [[]]
  | c :: cs =>
    if c = sep then [] :: splitChars sep cs
    else
      match splitChars sep cs with
      | [] => [[c]]
      | w :: ws => (c :: w) :: ws

/-- The call `s.split(' ')`. -/
def split (s : String) : List String :=
  (splitChars ' ' s.data).map String.mk

/-! ## `getUserPhoneNumber` (run.js 359-399) -/

/-- The `switch (words[i])` of `getUserPhoneNumber`: one loop iteration. -/
def phoneStep (phoneNum : String) (word : String) : String :=
  if word = "one" then phoneNum ++ "1"
  else if word = "two" then phoneNum ++ "2"
  else if word = "three" then phoneNum ++ "3"
  else if word = "four" then phoneNum ++ "4"
  else if word = "five" then phoneNum ++ "5"
  else if word = "six" then phoneNum ++ "6"
  else if word = "seven" then phoneNum ++ "7"
  else if word = "eight" then phoneNum ++ "8"
  else if word = "nine" then phoneNum ++ "9"
  else if word = "zero" then phoneNum ++ "0"
  else phoneNum

/-- The function `getUserPhoneNumber(spokenPhoneNumber)`. -/
def getUserPhoneNumber (spokenPhoneNumber : String) : String :=
  (split spokenPhoneNumber).foldl phoneStep "+1"

/-- The digit a token stands for, written from the specification: the words
`zero` .. `nine` are the digits `0` .. `9`, any other token is no digit. -/
def digitOfWord (word : String) : Option Char :=
  if word = "zero" then some '0'
  else if word = "one" then some '1'
  else if word = "two" then some '2'
  else if word = "three" then some '3'
  else if word = "four" then some '4'
  else if word = "five" then some '5'
  else if word = "six" then some '6'
  else if word = "seven" then some '7'
  else if word = "eight" then some '8'
  else if word = "nine" then some '9'
  else none

/-- The number of recognised digit words among the tokens of an input. -/
def recognisedCount (spoken : String) : Nat :=
  ((split spoken).filter (fun w => (digitOfWord w).isSome)).length

/-! ## `getCurrentStandings` (run.js 259-283) -/

/-- One element of the standings feed. -/
structure Standing where
  League : String
  Division : String
  Name : String
deriving DecidableEq, Repr

/-- The table `places` of `getCurrentStandings`. -/
def places : List String := ["first", "second", "third", "fourth", "last"]

/-- The lookup `places[placeIdx]`: `undefined` outside the table, and for the
`undefined` (then `NaN`) index that `let placeIdx;` starts with. -/
def placeAt (placeIdx : Option Nat) : JsVal :=
  match placeIdx with
  | none => JsVal.undefined
  | some i =>
    match places.get? i with
    | some p => JsVal.str p
    | none => JsVal.undefined

/-- The `for` loop of `getCurrentStandings` from entry `i` on, with the
current values of `div` and `placeIdx`. -/
def standingsLoop (team : String) : List Standing → String → Option Nat → JsVal
  | [], _, _ => JsVal.str "unknown"
  | e :: rest, div, placeIdx =>
    let currentDiv := e.League ++ e.Division
    let div1 := if div = "" ∨ div ≠ currentDiv then currentDiv else div
    let placeIdx1 :=
      if div = "" ∨ div ≠ currentDiv then some 0 else placeIdx.map (· + 1)
    if indexOf team e.Name > -1 then placeAt placeIdx1
    else standingsLoop team rest div1 placeIdx1

/-- The function `getCurrentStandings(team, standingsData)`; `standingsData = none` is a
falsy argument, for which the function falls off its end. -/
def getCurrentStandings (team : String) (standingsData : Option (List Standing)) : JsVal :=
  match standingsData with
  | none => JsVal.undefined
  | some data => standingsLoop team data "" none

/-- The American League East in provider order. -/
def alEast : List Standing :=
  [⟨"AL", "East", "Yankees"⟩, ⟨"AL", "East", "Red Sox"⟩, ⟨"AL", "East", "Rays"⟩,
   ⟨"AL", "East", "Blue Jays"⟩, ⟨"AL", "East", "Orioles"⟩]

/-- A division of five teams in which the first name occurs inside the third. -/
def soxDivision : List Standing :=
  [⟨"AL", "Central", "Sox"⟩, ⟨"AL", "Central", "Indians"⟩, ⟨"AL", "Central", "White Sox"⟩,
   ⟨"AL", "Central", "Twins"⟩, ⟨"AL", "Central", "Tigers"⟩]

/-- A division that lists six teams. -/
def sixTeamDivision : List Standing :=
  [⟨"NL", "East", "Nationals"⟩, ⟨"NL", "East", "Marlins"⟩, ⟨"NL", "East", "Braves"⟩,
   ⟨"NL", "East", "Mets"⟩, ⟨"NL", "East", "Phillies"⟩, ⟨"NL", "East", "Expos"⟩]

/-- No block of consecutive entries carrying one `League + Division` label has
more than five entries. -/
def DivisionsAtMostFive (l : List Standing) : Prop :=
  ∀ (front run back : List Standing) (d : String), l = front ++ run ++ back →
    (∀ x ∈ run, x.League ++ x.Division = d) → run.length ≤ 5

/-- The value is one of the five place names or the sentinel `"unknown"`. -/
def IsPlaceOrUnknown (v : JsVal) : Prop :=
  ∃ p ∈ "unknown" :: places, v = JsVal.str p

/-! ## Schedule data and the calendar -/

/-- One game of the schedule feed (the fields `run.js` reads). -/
structure Game where
  Day : String
  DateTime : String
  AwayTeam : String
  HomeTeam : String
deriving DecidableEq, Repr

/-- A proleptic Gregorian date: year, month (0-based as in JavaScript), day. -/
structure YMD where
  year : Nat
  month : Nat
  day : Nat
deriving DecidableEq, Repr

/-- Leap years. -/
def isLeapYear (y : Nat) : Bool :=
  (y % 4 == 0 && y % 100 != 0) || y % 400 == 0

/-- Number of days of a 0-based month. -/
def daysInMonth (y m : Nat) : Nat :=
  if m = 1 then (if isLeapYear y then 29 else 28)
  else if m = 3 ∨ m = 5 ∨ m = 8 ∨ m = 10 then 30
  else 31

/-- The date after `date.setDate(date.getDate() + 1)`. -/
def nextDay (d : YMD) : YMD :=
  if d.day < daysInMonth d.year d.month then { d with day := d.day + 1 }
  else if d.month < 11 then { d with month := d.month + 1, day := 1 }
  else { year := d.year + 1, month := 0, day := 1 }

/-- Two decimal digits, zero padded. -/
def pad2 (n : Nat) : String :=
  ⟨[Char.ofNat (48 + n / 10 % 10), Char.ofNat (48 + n % 10)]⟩

/-- The `MM-DD` part of `toJSON()`, i.e. `toJSON().substring(5,10)`. -/
def monthDay (d : YMD) : String :=
  pad2 (d.month + 1) ++ "-" ++ pad2 d.day

/-- The calendar walked by a loop that starts from the date `start`, for a
process whose local days are UTC days: `calendarFrom start n` is the `MM-DD`
of `start` plus `n` days. -/
def calendarFrom (start : YMD) (n : Nat) : String :=
  monthDay (nextDay^[n] start)

/-- The date `getCurrentDate()` returns under `IN_OFF_SEASON`:
`new Date(2017, 8, 28)`. -/
def offSeasonDate : YMD := { year := 2017, month := 8, day := 28 }

/-- The calendar of the off-season fixture: `09-29`, `09-30`, `10-01`, ... -/
def offSeasonCal : Nat → String := calendarFrom offSeasonDate

/-! ## `sortSchedule` (run.js 235-250) -/

/-- The `MM-DD` key of a game: `Day.substring(5,10)`. -/
def dayKey (g : Game) : String := substring g.Day 5 10

/-- The inner `for` loop of `sortSchedule` for the day whose `MM-DD` is `key`:
the first stored fragment whose first game has that key (`none` when the
loop runs to its end). Reading `mlbScheduleDates[i][0].Day` of an empty
fragment throws a `TypeError`. -/
def findFragment (key : String) : List (List Game) → Outcome (Option (List Game))
  | [] => Outcome.returned none
  | [] :: _ => Outcome.threw "TypeError"
  | (g :: gs) :: rest =>
    if dayKey g = key then Outcome.returned (some (g :: gs))
    else findFragment key rest

/-- The `while (daysProcessed < 7)` loop of `sortSchedule`. `day` counts the
`setDate` calls made so far, `fuel` bounds the iterations still allowed. -/
def sortLoop (cal : Nat → String) (mlbScheduleDates : List (List Game)) :
    Nat → Nat → Nat → List Game → Outcome (List Game)
  | 0, _, daysProcessed, mlbSchedule =>
    if daysProcessed < 7 then Outcome.running else Outcome.returned mlbSchedule
  | fuel + 1, day, daysProcessed, mlbSchedule =>
    if daysProcessed < 7 then
      match findFragment (cal (day + 1)) mlbScheduleDates with
      | Outcome.threw e => Outcome.threw e
      | Outcome.running => Outcome.running
      | Outcome.returned none =>
        sortLoop cal mlbScheduleDates fuel (day + 1) daysProcessed mlbSchedule
      | Outcome.returned (some frag) =>
        sortLoop cal mlbScheduleDates fuel (day + 1) (daysProcessed + 1) (mlbSchedule ++ frag)
    else Outcome.returned mlbSchedule

/-- The function `sortSchedule()`: the value of the global `mlbSchedule` when the call
returns, from the globals `mlbScheduleDates` and `mlbSchedule` (which is `[]`
at the one call `init` makes). -/
def sortSchedule (cal : Nat → String) (mlbScheduleDates : List (List Game))
    (mlbSchedule : List Game) (fuel : Nat) : Outcome (List Game) :=
  sortLoop cal mlbScheduleDates fuel 0 0 mlbSchedule

/-- The seven days of the window, as numbers of days after today. -/
def windowDays : List Nat := [1, 2, 3, 4, 5, 6, 7]

/-- A fragment is the fragment of a day: it is non-empty and its first game
carries the day's key. -/
def IsFragmentOf (key : String) (frag : List Game) : Prop :=
  ∃ g gs, frag = g :: gs ∧ dayKey g = key

/-- The key under which `sortSchedule` files a fragment: that of its first
game (`none` for an empty fragment). -/
def fragmentKey (frag : List Game) : Option String :=
  frag.head?.map dayKey

/-- A game of the schedule feed on the day `day` (`YYYY-MM-DD`), first pitch
at 19:05. -/
def game (day away home : String) : Game :=
  ⟨day ++ "T00:00:00", day ++ "T19:05:00", away, home⟩

/-- The fragments of the seven days after 2017-09-28, by number of days after
that date. -/
def weekFragment : Nat → List Game
  | 1 => [game "2017-09-29" "HOU" "BOS", game "2017-09-29" "TOR" "NYY"]
  | 2 => [game "2017-09-30" "HOU" "BOS", game "2017-09-30" "TOR" "NYY"]
  | 3 => [game "2017-10-01" "HOU" "BOS"]
  | 4 => [game "2017-10-02" "MIN" "NYY"]
  | 5 => [game "2017-10-03" "MIN" "NYY", game "2017-10-03" "COL" "ARI"]
  | 6 => [game "2017-10-04" "COL" "ARI", game "2017-10-04" "NYY" "CLE"]
  | 7 => [game "2017-10-05" "MIN" "HOU", game "2017-10-05" "NYY" "CLE"]
  | _ => []

/-- The seven fragments in an order in which the responses may arrive. -/
def weekArrival : List (List Game) :=
  [weekFragment 3, weekFragment 7, weekFragment 1, weekFragment 6, weekFragment 2,
   weekFragment 5, weekFragment 4]

/-- A second fragment filed under `09-29`: the same day one year earlier. -/
def lastYearFragment : List Game := [game "2016-09-29" "NYY" "BOS"]

/-- Only the three days to the end of the regular season have games. -/
def seasonEnd : List (List Game) :=
  [weekFragment 3, weekFragment 1, weekFragment 2]

/-! ## The day responses of `getMlbSchedules` (run.js 206-221) -/

/-- The `.then` callback of one day request, as far as it touches
`mlbScheduleDates`: a non-empty `daySchedule` is stored at index
`mlbScheduleDates.length`, an empty one (`NO GAMES FOUND`) is only logged. -/
def storeDaySchedule (mlbScheduleDates : List (List Game)) (daySchedule : List Game) :
    List (List Game) :=
  if daySchedule.length > 0 then mlbScheduleDates ++ [daySchedule] else mlbScheduleDates

/-- The global `mlbScheduleDates` (initially `[]`) after the day responses
`responses` have come in, in that order. -/
def collectSchedules (responses : List (List Game)) : List (List Game) :=
  responses.foldl storeDaySchedule []

/-- Seven day responses without a game: a week in the off season. -/
def noGamesWeek : List (List Game) := List.replicate 7 []

/-- The responses of the week after 2017-09-28 when 2017-10-02 is a day
without games. -/
def offDayWeek : List (List Game) :=
  [weekFragment 3, weekFragment 7, weekFragment 1, [], weekFragment 6, weekFragment 2,
   weekFragment 5]

/-! ## `getUpcomingSchedule` (run.js 293-350) -/

/-- One element of the teams feed. -/
structure Team where
  Key : String
  Name : String
deriving DecidableEq, Repr

/-- The first loop of `getUpcomingSchedule`: the `Key` of the first team whose
`Name` occurs in `team`, `''` when there is none. -/
def findTeamKey (team : String) : List Team → String
  | [] => ""
  | t :: rest =>
    if indexOf team t.Name > -1 then t.Key else findTeamKey team rest

/-- The string `game` built for one schedule entry: empty when the team is
neither the away nor the home side. -/
def gameLine (teamKey : String) (g : Game) : String :=
  if g.AwayTeam = teamKey then
    substring g.DateTime 5 10 ++ " " ++ substring g.DateTime 11 16 ++ " @ " ++ g.HomeTeam ++ "\n"
  else if g.HomeTeam = teamKey then
    substring g.DateTime 5 10 ++ " " ++ substring g.DateTime 11 16 ++ " vs. " ++ g.AwayTeam ++ "\n"
  else ""

/-- The inner `for` loop of `getUpcomingSchedule` for the day with key `key`:
the `game` string at which the loop breaks, `none` when it runs to its end. -/
def scanDay (key teamKey : String) : List Game → Option String
  | [] => none
  | g :: rest =>
    if dayKey g = key then
      if gameLine teamKey g ≠ "" then some (gameLine teamKey g)
      else scanDay key teamKey rest
    else scanDay key teamKey rest

/-- The `while (! done)` loop of `getUpcomingSchedule`. -/
def upcomingLoop (cal : Nat → String) (teamKey : String) (mlbSchedule : List Game) :
    Nat → Nat → Nat → String → Outcome String
  | 0, _, _, _ => Outcome.running
  | fuel + 1, dayCtr, gameCount, schedString =>
    match scanDay (cal (dayCtr + 1)) teamKey mlbSchedule with
    | some game =>
      if gameCount + 1 = 5 ∨ dayCtr + 1 = 7 then Outcome.returned (schedString ++ game)
      else upcomingLoop cal teamKey mlbSchedule fuel (dayCtr + 1) (gameCount + 1)
        (schedString ++ game)
    | none =>
      if dayCtr + 1 = 7 then Outcome.returned schedString
      else upcomingLoop cal teamKey mlbSchedule fuel (dayCtr + 1) gameCount schedString

/-- The function `getUpcomingSchedule(team)` from the globals `mlbTeams` (`none` while it is
still `undefined`) and `mlbSchedule` (always an array, hence truthy). The
`return` sits inside the `if`: with a falsy `teamKey` the function falls off
its end. -/
def getUpcomingSchedule (cal : Nat → String) (mlbTeams : Option (List Team))
    (mlbSchedule : List Game) (team : String) (fuel : Nat) : Outcome JsVal :=
  let teamKey :=
    match mlbTeams with
    | none => ""
    | some teams => findTeamKey team teams
  if teamKey ≠ "" then
    match upcomingLoop cal teamKey mlbSchedule fuel 0 0
        ("Upcoming schedule for the " ++ team ++ ":\n") with
    | Outcome.returned s => Outcome.returned (JsVal.str s)
    | Outcome.threw e => Outcome.threw e
    | Outcome.running => Outcome.running
  else Outcome.returned JsVal.undefined

/-- The team with key `teamKey` plays (home or away) in game `g` on the day
with key `key`. -/
def playsOn (key teamKey : String) (g : Game) : Bool :=
  decide (dayKey g = key) && (decide (g.AwayTeam = teamKey) || decide (g.HomeTeam = teamKey))

/-- The lines the specification asks for: walking the window in day order,
the first game of each day in which the team plays, cut after 5 lines. -/
def upcomingLines (cal : Nat → String) (teamKey : String) (mlbSchedule : List Game) :
    List String :=
  (windowDays.filterMap
    (fun d => (mlbSchedule.find? (playsOn (cal d) teamKey)).map (gameLine teamKey))).take 5

/-- The number of window days on which the team plays. -/
def playDays (cal : Nat → String) (teamKey : String) (mlbSchedule : List Game) : Nat :=
  (windowDays.filter (fun d => mlbSchedule.any (playsOn (cal d) teamKey))).length

/-- Concatenation of a list of lines. -/
def concatLines (lines : List String) : String :=
  lines.foldr (· ++ ·) ""

/-- The teams feed, as far as the examples need it. -/
def someTeams : List Team :=
  [⟨"BOS", "Red Sox"⟩, ⟨"NYY", "Yankees"⟩, ⟨"HOU", "Astros"⟩]

/-- The week after 2017-09-28 merged in day order. -/
def weekSchedule : List Game :=
  weekFragment 1 ++ weekFragment 2 ++ weekFragment 3 ++ weekFragment 4
    ++ weekFragment 5 ++ weekFragment 6 ++ weekFragment 7

/-! ## The readiness barrier: `init` and `startConversationIfReady` (run.js 697-756) -/

/-- The three readiness flags, with counters for the two effects of
`startConversationIfReady`. -/
structure Ready where
  mlbTeamsRetrieved : Bool
  mlbStandingsRetrieved : Bool
  mlbScheduleRetrieved : Bool
  micStarts : Nat
  conversations : Nat
deriving DecidableEq, Repr

/-- The flags as `run.js` declares them. -/
def Ready.initial : Ready :=
  { mlbTeamsRetrieved := false, mlbStandingsRetrieved := false,
    mlbScheduleRetrieved := false, micStarts := 0, conversations := 0 }

/-- The function `startConversationIfReady()`. -/
def startConversationIfReady (s : Ready) : Ready :=
  if s.mlbTeamsRetrieved && s.mlbStandingsRetrieved && s.mlbScheduleRetrieved then
    { s with micStarts := s.micStarts + 1, conversations := s.conversations + 1 }
  else s

/-- The three feeds `init` requests. -/
inductive Feed where
  | teams
  | standings
  | schedule
deriving DecidableEq, Repr

/-- The `.then` callback `init` attaches to a feed: set the feed's flag, then
call `startConversationIfReady`. (The schedule callback first runs
`sortSchedule`, which touches no flag.) -/
def complete (s : Ready) : Feed → Ready
  | Feed.teams => startConversationIfReady { s with mlbTeamsRetrieved := true }
  | Feed.standings => startConversationIfReady { s with mlbStandingsRetrieved := true }
  | Feed.schedule => startConversationIfReady { s with mlbScheduleRetrieved := true }

/-- The state after the feeds of `order` have completed, in that order. -/
def runInit (order : List Feed) : Ready :=
  order.foldl complete Ready.initial

/-- All three flags are set. -/
def Ready.allRetrieved (s : Ready) : Bool :=
  s.mlbTeamsRetrieved && s.mlbStandingsRetrieved && s.mlbScheduleRetrieved

/-! ## The stage checks (run.js 550-585) and their use in `mlbConversation` -/

/-- The object `context.system`; `dialog_stack = none` is an absent property. -/
structure SystemCtx where
  dialog_stack : Option (List String)
deriving DecidableEq, Repr

/-- The global `context` as far as the stage checks read it. -/
structure Context where
  system : Option SystemCtx
deriving DecidableEq, Repr

/-- The test `context && context.system && context.system.dialog_stack[0] === name`
shared by the three checks. Indexing an absent `dialog_stack` throws. -/
def stackTopIs (name : String) (context : Option Context) : Outcome Bool :=
  match context with
  | none => Outcome.returned false
  | some c =>
    match c.system with
    | none => Outcome.returned false
    | some sys =>
      match sys.dialog_stack with
      | none => Outcome.threw "TypeError"
      | some stack => Outcome.returned (decide (stack.head? = some name))

/-- The function `validateTeamStep()`. -/
def validateTeamStep (context : Option Context) : Outcome Bool :=
  stackTopIs "Validate Team" context

/-- The function `validateEmotionStep()`. -/
def validateEmotionStep (context : Option Context) : Outcome Bool :=
  stackTopIs "Validate Emotion" context

/-- The function `textTeamInfoStep()`. -/
def textTeamInfoStep (context : Option Context) : Outcome Bool :=
  stackTopIs "Text Team Info" context

/-- The stage `mlbConversation` acts on after a dialog round trip. -/
inductive Stage where
  | validateEmotion
  | validateTeam
  | textTeamInfo
  | none
deriving DecidableEq, Repr

/-- The `if / else if / else if` chain of `mlbConversation` (run.js 653-688):
the checks are called in this order until one returns `true`. -/
def selectStage (context : Option Context) : Outcome Stage :=
  match validateEmotionStep context with
  | Outcome.threw e => Outcome.threw e
  | Outcome.running => Outcome.running
  | Outcome.returned true => Outcome.returned Stage.validateEmotion
  | Outcome.returned false =>
    match validateTeamStep context with
    | Outcome.threw e => Outcome.threw e
    | Outcome.running => Outcome.running
    | Outcome.returned true => Outcome.returned Stage.validateTeam
    | Outcome.returned false =>
      match textTeamInfoStep context with
      | Outcome.threw e => Outcome.threw e
      | Outcome.running => Outcome.running
      | Outcome.returned true => Outcome.returned Stage.textTeamInfo
      | Outcome.returned false => Outcome.returned Stage.none

/-- A context whose `system` carries the dialog stack `stack`. -/
def contextWithStack (stack : List String) : Option Context :=
  some { system := some { dialog_stack := some stack } }

/-- A context whose `system` object has no `dialog_stack` property:
`{ system: {} }`. -/
def contextWithoutStack : Option Context :=
  some { system := some { dialog_stack := none } }

/-- A context with no `system` property: `{}`, the value `context` starts with. -/
def contextWithoutSystem : Option Context :=
  some { system := none }

/-! # Properties -/

/-! ## Properties of `getUserPhoneNumber` -/

theorem length_filterMap_eq_filter {α β : Type} (f : α → Option β) (l : List α) :
    (l.filterMap f).length = (l.filter (fun x => (f x).isSome)).length := by
  induction l with
  | nil => rfl
  | cons a l ih =>
    cases h : f a <;> simp [List.filterMap_cons, List.filter_cons, h, ih]

theorem phoneStep_eq (acc w : String) :
    phoneStep acc w = acc ++ String.mk (digitOfWord w).toList := by
  by_cases h1 : w = "one"
  · subst h1; rfl
  by_cases h2 : w = "two"
  · subst h2; rfl
  by_cases h3 : w = "three"
  · subst h3; rfl
  by_cases h4 : w = "four"
  · subst h4; rfl
  by_cases h5 : w = "five"
  · subst h5; rfl
  by_cases h6 : w = "six"
  · subst h6; rfl
  by_cases h7 : w = "seven"
  · subst h7; rfl
  by_cases h8 : w = "eight"
  · subst h8; rfl
  by_cases h9 : w = "nine"
  · subst h9; rfl
  by_cases h0 : w = "zero"
  · subst h0; rfl
  simp only [phoneStep, digitOfWord, h1, h2, h3, h4, h5, h6, h7, h8, h9, h0, if_false,
    Option.toList]
  apply String.ext
  simp

theorem foldl_phoneStep (ws : List String) (acc : String) :
    ws.foldl phoneStep acc = acc ++ String.mk (ws.filterMap digitOfWord) := by
  induction ws generalizing acc with
  | nil => apply String.ext; simp
  | cons w ws ih =>
    rw [List.foldl_cons, ih, phoneStep_eq]
    apply String.ext
    cases h : digitOfWord w <;> simp [List.filterMap_cons, h]

/-- C1: for every input string, `getUserPhoneNumber` returns `"+1"` followed by
the digits of the recognised tokens of `split(' ')`, in input order, every
other token adding nothing; its length is 2 plus the number of recognised
digit words, so exactly 10 recognised words give a 12-character string. -/
theorem getUserPhoneNumber_digits (spoken : String) :
    getUserPhoneNumber spoken = "+1" ++ String.mk ((split spoken).filterMap digitOfWord)
    ∧ (getUserPhoneNumber spoken).length = 2 + recognisedCount spoken
    ∧ (recognisedCount spoken = 10 → (getUserPhoneNumber spoken).length = 12) := by
  have h1 : getUserPhoneNumber spoken
      = "+1" ++ String.mk ((split spoken).filterMap digitOfWord) := foldl_phoneStep _ _
  have h2 : (getUserPhoneNumber spoken).length = 2 + recognisedCount spoken := by
    rw [h1, String.length_append, recognisedCount, ← length_filterMap_eq_filter]
    rfl
  exact ⟨h1, h2, fun h => by rw [h2, h]⟩

theorem splitChars_ne_nil (sep : Char) (s : List Char) : splitChars sep s ≠ [] := by
  cases s with
  | nil => simp [splitChars]
  | cons c cs =>
    simp only [splitChars]
    split_ifs
    · simp
    · split <;> simp

theorem splitChars_intercalate (sep : Char) (s : List Char) :
    [sep].intercalate (splitChars sep s) = s := by
  induction s with
  | nil => simp [splitChars, List.intercalate]
  | cons c cs ih =>
    simp only [splitChars]
    split_ifs with h
    · subst h
      have := splitChars_ne_nil c cs
      cases hs : splitChars c cs with
      | nil => exact absurd hs this
      | cons w ws => 
        rw [hs] at ih
        simp [List.intercalate, List.intersperse] at ih ⊢
        exact ih
    · cases hs : splitChars sep cs with
      | nil => exact absurd hs (splitChars_ne_nil sep cs)
      | cons w ws =>
        rw [hs] at ih
        cases ws <;> simp_all [List.intercalate, List.intersperse]

theorem splitChars_no_sep (sep : Char) (s : List Char) :
    ∀ w ∈ splitChars sep s, sep ∉ w := by
  induction s with
  | nil => simp [splitChars]
  | cons c cs ih =>
    simp only [splitChars]
    split_ifs with h
    · intro w hw
      rcases List.mem_cons.1 hw with rfl | hw
      · simp
      · exact ih w hw
    · cases hs : splitChars sep cs with
      | nil => exact absurd hs (splitChars_ne_nil sep cs)
      | cons w ws =>
        rw [hs] at ih
        intro v hv
        rcases List.mem_cons.1 hv with rfl | hv
        · have := ih w (List.mem_cons_self _ _)
          simp [this, Ne.symm h]
        · exact ih v (List.mem_cons_of_mem _ hv)

/-- Witness of C1: a dictation with ten digit words, two unrecognised tokens
and a doubled space. -/
theorem getUserPhoneNumber_digits_witness :
    recognisedCount "um five five five  one two three four five six seven please" = 10
    ∧ (getUserPhoneNumber
        "um five five five  one two three four five six seven please").length = 12 :=
  ⟨by decide, (getUserPhoneNumber_digits _).2.2 (by decide)⟩

/-! ## Properties of `indexOf` and `getCurrentStandings` -/

theorem indexOfChars_ge (pat s : List Char) : -1 ≤ indexOfChars pat s := by
  induction s with
  | nil => simp only [indexOfChars]; split_ifs <;> omega
  | cons c t ih =>
    simp only [indexOfChars]
    split_ifs <;> omega

theorem indexOfChars_found_iff (pat s : List Char) :
    indexOfChars pat s > -1 ↔ pat <:+: s := by
  induction s with
  | nil =>
    simp only [indexOfChars]
    split_ifs with h
    · subst h; simp
    · simp [h]
  | cons c t ih =>
    simp only [indexOfChars]
    by_cases hp : pat.isPrefixOf (c :: t) = true
    · rw [if_pos hp]
      have : pat <+: c :: t := List.isPrefixOf_iff_prefix.1 hp
      exact ⟨fun _ => this.isInfix, fun _ => by omega⟩
    · rw [if_neg hp]
      have hnp : ¬ pat <+: c :: t := fun h => hp (List.isPrefixOf_iff_prefix.2 h)
      have hge := indexOfChars_ge pat t
      rw [List.infix_cons_iff]
      constructor
      · intro h
        right
        apply ih.1
        split_ifs at h with h1
        · omega
        · omega
      · rintro (h | h)
        · exact absurd h hnp
        · have := ih.2 h
          split_ifs with h1
          · omega
          · omega

theorem indexOf_found_iff (s pat : String) :
    indexOf s pat > -1 ↔ pat.data <:+: s.data :=
  indexOfChars_found_iff _ _

theorem standingsLoop_unknown (team : String) (l : List Standing) (div : String)
    (p : Option Nat) (h : ∀ x ∈ l, ¬ x.Name.data <:+: team.data) :
    standingsLoop team l div p = JsVal.str "unknown" := by
  induction l generalizing div p with
  | nil => rfl
  | cons e rest ih =>
    have he : ¬ indexOf team e.Name > -1 := fun hc =>
      h e (List.mem_cons_self _ _) ((indexOf_found_iff _ _).1 hc)
    simp only [standingsLoop, if_neg he]
    exact ih _ _ (fun x hx => h x (List.mem_cons_of_mem _ hx))

theorem standingsLoop_same_div (team d : String) (hd : d ≠ "") (l : List Standing)
    (i k : Nat) (e : Standing)
    (hdiv : ∀ x ∈ l, x.League ++ x.Division = d)
    (hk : l.get? k = some e)
    (hfirst : ∀ j < k, ∀ x, l.get? j = some x → ¬ x.Name.data <:+: team.data)
    (hmatch : e.Name.data <:+: team.data) :
    standingsLoop team l d (some i) = placeAt (some (i + 1 + k)) := by
  induction l generalizing i k with
  | nil => simp at hk
  | cons x rest ih =>
    have hx : x.League ++ x.Division = d := hdiv x (List.mem_cons_self _ _)
    have hreset : ¬ (d = "" ∨ d ≠ x.League ++ x.Division) := by
      rw [hx]; simp [hd]
    cases k with
    | zero =>
      simp only [List.get?_cons_zero, Option.some.injEq] at hk
      subst hk
      have hm : indexOf team x.Name > -1 := (indexOf_found_iff _ _).2 hmatch
      simp only [standingsLoop, if_neg hreset, if_pos hm, Option.map_some']
    | succ k =>
      have hx0 : ¬ indexOf team x.Name > -1 := fun hc =>
        hfirst 0 (Nat.succ_pos _) x rfl ((indexOf_found_iff _ _).1 hc)
      simp only [standingsLoop, if_neg hreset, if_neg hx0, Option.map_some']
      rw [ih (i + 1) k (fun y hy => hdiv y (List.mem_cons_of_mem _ hy)) hk
        (fun j hj y hy => hfirst (j + 1) (Nat.succ_lt_succ hj) y hy)]
      congr 2
      omega

theorem standingsLoop_start (team d : String) (hd : d ≠ "") (l : List Standing)
    (k : Nat) (e : Standing)
    (hdiv : ∀ x ∈ l, x.League ++ x.Division = d)
    (hk : l.get? k = some e)
    (hfirst : ∀ j < k, ∀ x, l.get? j = some x → ¬ x.Name.data <:+: team.data)
    (hmatch : e.Name.data <:+: team.data) :
    standingsLoop team l "" none = placeAt (some k) := by
  cases l with
  | nil => simp at hk
  | cons x rest =>
    have hreset : (("" : String) = "" ∨ ("" : String) ≠ x.League ++ x.Division) := Or.inl rfl
    cases k with
    | zero =>
      simp only [List.get?_cons_zero, Option.some.injEq] at hk
      subst hk
      have hm : indexOf team x.Name > -1 := (indexOf_found_iff _ _).2 hmatch
      simp only [standingsLoop, if_pos hm, true_or, if_true]
    | succ k =>
      have hx : x.League ++ x.Division = d := hdiv x (List.mem_cons_self _ _)
      have hx0 : ¬ indexOf team x.Name > -1 := fun hc =>
        hfirst 0 (Nat.succ_pos _) x rfl ((indexOf_found_iff _ _).1 hc)
      simp only [standingsLoop, if_neg hx0, hx, true_or, if_true]
      rw [standingsLoop_same_div team d hd rest 0 k e
        (fun y hy => hdiv y (List.mem_cons_of_mem _ hy)) hk
        (fun j hj y hy => hfirst (j + 1) (Nat.succ_lt_succ hj) y hy) hmatch]
      congr 2
      omega

/-- C2 (amended): in a standings list that is one division (one non-empty
`League + Division` label) of exactly 5 teams, looking up the name of the
`k`-th team returns the `k`-th of first, second, third, fourth, last (the third
team's name returns `"third"`) provided no earlier team's name occurs inside
that name; a team string in which no listed name occurs returns `"unknown"`. -/
theorem getCurrentStandings_division_of_five (l : List Standing) (d : String)
    (hlen : l.length = 5) (hd : d ≠ "")
    (hdiv : ∀ x ∈ l, x.League ++ x.Division = d) :
    (∀ k e, l.get? k = some e →
      (∀ j < k, ∀ x, l.get? j = some x → ¬ x.Name.data <:+: e.Name.data) →
      (places.get? k).map JsVal.str = some (getCurrentStandings e.Name (some l)))
    ∧ (∀ e, l.get? 2 = some e →
      (∀ j < 2, ∀ x, l.get? j = some x → ¬ x.Name.data <:+: e.Name.data) →
      getCurrentStandings e.Name (some l) = JsVal.str "third")
    ∧ (∀ team, (∀ x ∈ l, ¬ x.Name.data <:+: team.data) →
      getCurrentStandings team (some l) = JsVal.str "unknown") := by
  have key : ∀ k e, l.get? k = some e →
      (∀ j < k, ∀ x, l.get? j = some x → ¬ x.Name.data <:+: e.Name.data) →
      getCurrentStandings e.Name (some l) = placeAt (some k) := by
    intro k e hk hfirst
    exact standingsLoop_start e.Name d hd l k e hdiv hk hfirst List.infix_rfl
  refine ⟨?_, ?_, ?_⟩
  · intro k e hk hfirst
    rw [key k e hk hfirst]
    have hklt : k < 5 := by
      have := (List.get?_eq_some.1 hk).1
      omega
    have : k = 0 ∨ k = 1 ∨ k = 2 ∨ k = 3 ∨ k = 4 := by omega
    rcases this with h | h | h | h | h <;> subst h <;> rfl
  · intro e hk hfirst
    rw [key 2 e hk hfirst]
    rfl
  · intro team h
    exact standingsLoop_unknown team l "" none h

/-- Witness of C2 (amended): the American League East, where `Rays` is the
third entry, and a team that is not listed. -/
theorem getCurrentStandings_division_of_five_witness :
    getCurrentStandings "Rays" (some alEast) = JsVal.str "third"
    ∧ getCurrentStandings "Cubs" (some alEast) = JsVal.str "unknown" := by
  have h := getCurrentStandings_division_of_five alEast "ALEast" (by decide) (by decide)
    (by decide)
  refine ⟨h.2.1 ⟨"AL", "East", "Rays"⟩ rfl ?_, h.2.2 "Cubs" (by decide)⟩
  intro j hj x hx
  have hj2 : j = 0 ∨ j = 1 := by omega
  rcases hj2 with rfl | rfl
  · simp only [alEast, List.get?_cons_zero, Option.some.injEq] at hx
    subst hx
    decide
  · simp only [alEast, List.get?_cons_succ, List.get?_cons_zero, Option.some.injEq] at hx
    subst hx
    decide

/-- C2 (counterexample): a division of 5 teams with pairwise different names
whose third team is `White Sox`; looking that name up returns `"first"`,
because the first entry's name `Sox` occurs inside it. -/
theorem getCurrentStandings_third_counterexample :
    soxDivision.length = 5
    ∧ (∀ x ∈ soxDivision, x.League = "AL" ∧ x.Division = "Central")
    ∧ (soxDivision.map Standing.Name).Nodup
    ∧ (soxDivision.get? 2).map Standing.Name = some "White Sox"
    ∧ getCurrentStandings "White Sox" (some soxDivision) = JsVal.str "first"
    ∧ getCurrentStandings "White Sox" (some soxDivision) ≠ JsVal.str "third" := by
  decide

theorem placeAt_named (j : Nat) (hj : j ≤ 4) : IsPlaceOrUnknown (placeAt (some j)) := by
  have : j = 0 ∨ j = 1 ∨ j = 2 ∨ j = 3 ∨ j = 4 := by omega
  rcases this with h | h | h | h | h <;> subst h
  · exact ⟨"first", by decide, rfl⟩
  · exact ⟨"second", by decide, rfl⟩
  · exact ⟨"third", by decide, rfl⟩
  · exact ⟨"fourth", by decide, rfl⟩
  · exact ⟨"last", by decide, rfl⟩

theorem standingsLoop_named (team : String) (l : List Standing)
    (h5 : DivisionsAtMostFive l) (rest : List Standing) :
    ∀ (front run : List Standing) (div : String) (i : Nat),
      l = front ++ run ++ rest → run.length = i + 1 →
      (∀ x ∈ run, x.League ++ x.Division = div) →
      IsPlaceOrUnknown (standingsLoop team rest div (some i)) := by
  induction rest with
  | nil =>
    intro _ _ _ _ _ _ _
    exact ⟨"unknown", by decide, rfl⟩
  | cons e rest ih =>
    intro front run div i hl hlen hrun
    by_cases hreset : div = "" ∨ div ≠ e.League ++ e.Division
    · have hrec := ih (front ++ run) [e] (e.League ++ e.Division) 0
        (by rw [hl]; simp) rfl (by simp)
      simp only [standingsLoop, if_pos hreset]
      split_ifs
      · exact placeAt_named 0 (by omega)
      · exact hrec
    · have hdiv : div = e.League ++ e.Division := by
        by_contra hne
        exact hreset (Or.inr hne)
      have hrun' : ∀ x ∈ run ++ [e], x.League ++ x.Division = div := by
        intro x hx
        rcases List.mem_append.1 hx with hx | hx
        · exact hrun x hx
        · rw [List.mem_singleton.1 hx, hdiv]
      have hle : (run ++ [e]).length ≤ 5 :=
        h5 front (run ++ [e]) rest div (by rw [hl]; simp) hrun'
      have hi : i + 1 ≤ 4 := by
        simp only [List.length_append, List.length_singleton, hlen] at hle
        omega
      have hrec := ih front (run ++ [e]) div (i + 1) (by rw [hl]; simp)
        (by simp [hlen]) hrun'
      simp only [standingsLoop, if_neg hreset, Option.map_some']
      split_ifs
      · exact placeAt_named (i + 1) hi
      · exact hrec

/-- C9 (amended): for every team string and every standings list in which no
block of consecutive entries of one division has more than five entries,
`getCurrentStandings` returns one of first, second, third, fourth, last or
`"unknown"`; in a list that is one division, when the first entry whose name
occurs in the team string is the sixth or a later one, it returns `undefined`. -/
theorem getCurrentStandings_named_place (team : String) (l : List Standing) :
    (DivisionsAtMostFive l → IsPlaceOrUnknown (getCurrentStandings team (some l)))
    ∧ (∀ (d : String) (k : Nat) (e : Standing), d ≠ "" →
        (∀ x ∈ l, x.League ++ x.Division = d) →
        l.get? k = some e → e.Name.data <:+: team.data →
        (∀ j < k, ∀ x, l.get? j = some x → ¬ x.Name.data <:+: team.data) →
        5 ≤ k → getCurrentStandings team (some l) = JsVal.undefined) := by
  constructor
  · intro h5
    cases l with
    | nil => exact ⟨"unknown", by decide, rfl⟩
    | cons e rest =>
      have hrec := standingsLoop_named team (e :: rest) h5 rest [] [e]
        (e.League ++ e.Division) 0 rfl rfl (by simp)
      simp only [getCurrentStandings, standingsLoop, true_or, if_true]
      split_ifs
      · exact placeAt_named 0 (by omega)
      · exact hrec
  · intro d k e hd hdiv hk hmatch hfirst h5
    have h := standingsLoop_start team d hd l k e hdiv hk hfirst hmatch
    simp only [getCurrentStandings, h, placeAt]
    have hnone : places.get? k = none := by
      apply List.get?_eq_none.2
      simpa [places] using h5
    rw [hnone]

theorem alEast_divisionsAtMostFive : DivisionsAtMostFive alEast := by
  intro front run back d hl _
  have : alEast.length = (front ++ run ++ back).length := by rw [hl]
  simp only [List.length_append] at this
  have h5 : alEast.length = 5 := rfl
  omega

theorem sixTeamDivision_first_match :
    ∀ j < 5, ∀ x, sixTeamDivision.get? j = some x → ¬ x.Name.data <:+: "Expos".data := by
  intro j hj x hx
  have hj5 : j = 0 ∨ j = 1 ∨ j = 2 ∨ j = 3 ∨ j = 4 := by omega
  rcases hj5 with rfl | rfl | rfl | rfl | rfl <;>
    (simp only [sixTeamDivision, List.get?_cons_succ, List.get?_cons_zero,
      Option.some.injEq] at hx
     subst hx
     decide)

/-- Witness of C9 (amended): the five-team American League East with a spoken
team string, and the sixth entry of a six-team division. -/
theorem getCurrentStandings_named_place_witness :
    DivisionsAtMostFive alEast
    ∧ IsPlaceOrUnknown (getCurrentStandings "Boston Red Sox" (some alEast))
    ∧ getCurrentStandings "Expos" (some sixTeamDivision) = JsVal.undefined :=
  ⟨alEast_divisionsAtMostFive,
    (getCurrentStandings_named_place "Boston Red Sox" alEast).1 alEast_divisionsAtMostFive,
    (getCurrentStandings_named_place "Expos" sixTeamDivision).2 "NLEast" 5
      ⟨"NL", "East", "Expos"⟩ (by decide) (by decide) rfl (by decide)
      sixTeamDivision_first_match (le_refl 5)⟩

/-- C9 (counterexample): in a division that lists six teams the sixth team's
name is looked up at `places[5]`, outside the five-name table, and the
function returns `undefined`, which is neither a place name nor `"unknown"`. -/
theorem getCurrentStandings_sixth_counterexample :
    (∀ x ∈ sixTeamDivision, x.League ++ x.Division = "NLEast")
    ∧ (sixTeamDivision.get? 5).map Standing.Name = some "Expos"
    ∧ places.get? 5 = none
    ∧ getCurrentStandings "Expos" (some sixTeamDivision) = JsVal.undefined
    ∧ ¬ IsPlaceOrUnknown (getCurrentStandings "Expos" (some sixTeamDivision)) := by
  refine ⟨by decide, by decide, by decide, by decide, ?_⟩
  rintro ⟨p, _, hp⟩
  have h : getCurrentStandings "Expos" (some sixTeamDivision) = JsVal.undefined := by decide
  rw [h] at hp
  exact JsVal.noConfusion hp

/-! ## Properties of `sortSchedule` -/

theorem findFragment_unique (key : String) (target : List Game) (dates : List (List Game))
    (hne : ∀ fr ∈ dates, fr ≠ [])
    (hmem : target ∈ dates)
    (htarget : IsFragmentOf key target)
    (huniq : ∀ fr ∈ dates, IsFragmentOf key fr → fr = target) :
    findFragment key dates = Outcome.returned (some target) := by
  induction dates with
  | nil => simp at hmem
  | cons fr rest ih =>
    cases fr with
    | nil => exact absurd rfl (hne [] (List.mem_cons_self _ _))
    | cons g gs =>
      by_cases hk : dayKey g = key
      · have := huniq (g :: gs) (List.mem_cons_self _ _) ⟨g, gs, rfl, hk⟩
        simp only [findFragment, if_pos hk, this]
      · have hrest : target ∈ rest := by
          rcases List.mem_cons.1 hmem with h | h
          · obtain ⟨g', gs', hg, hkey⟩ := htarget
            rw [hg] at h
            injection h with h1 _
            rw [h1] at hkey
            exact absurd hkey hk
          · exact h
        simp only [findFragment, if_neg hk]
        exact ih (fun fr h => hne fr (List.mem_cons_of_mem _ h)) hrest
          (fun fr h => huniq fr (List.mem_cons_of_mem _ h))

theorem sortLoop_step (cal : Nat → String) (dates : List (List Game)) (fuel day dp : Nat)
    (s frag : List Game) (hdp : dp < 7)
    (h : findFragment (cal (day + 1)) dates = Outcome.returned (some frag)) :
    sortLoop cal dates (fuel + 1) day dp s = sortLoop cal dates fuel (day + 1) (dp + 1) (s ++ frag) := by
  simp only [sortLoop, if_pos hdp, h]

theorem sortLoop_skip (cal : Nat → String) (dates : List (List Game)) (fuel day dp : Nat)
    (s : List Game) (hdp : dp < 7)
    (h : findFragment (cal (day + 1)) dates = Outcome.returned none) :
    sortLoop cal dates (fuel + 1) day dp s = sortLoop cal dates fuel (day + 1) dp s := by
  simp only [sortLoop, if_pos hdp, h]

theorem sortLoop_done (cal : Nat → String) (dates : List (List Game)) (fuel day dp : Nat)
    (s : List Game) (hdp : ¬ dp < 7) :
    sortLoop cal dates fuel day dp s = Outcome.returned s := by
  cases fuel <;> simp only [sortLoop, if_neg hdp]

theorem findFragment_window (cal : Nat → String) (frag : Nat → List Game)
    (dates : List (List Game))
    (hdays : (windowDays.map cal).Nodup)
    (hfrag : ∀ d ∈ windowDays, IsFragmentOf (cal d) (frag d))
    (harrival : dates.Perm (windowDays.map frag)) (d : Nat) (hd : d ∈ windowDays) :
    findFragment (cal d) dates = Outcome.returned (some (frag d)) := by
  have hmem : ∀ fr, fr ∈ dates ↔ ∃ e ∈ windowDays, frag e = fr := by
    intro fr
    rw [harrival.mem_iff, List.mem_map]
  apply findFragment_unique
  · intro fr hfr
    obtain ⟨e, he, rfl⟩ := (hmem fr).1 hfr
    obtain ⟨g, gs, hg, _⟩ := hfrag e he
    rw [hg]
    exact List.cons_ne_nil _ _
  · exact (hmem _).2 ⟨d, hd, rfl⟩
  · exact hfrag d hd
  · intro fr hfr hkey
    obtain ⟨e, he, rfl⟩ := (hmem fr).1 hfr
    obtain ⟨g, gs, hg, hk⟩ := hfrag e he
    obtain ⟨g', gs', hg', hk'⟩ := hkey
    rw [hg] at hg'
    injection hg' with h1 _
    have hcal : cal e = cal d := by rw [← hk, ← hk', h1]
    rw [List.inj_on_of_nodup_map hdays he hd hcal]

/-- C3: when the stored fragments are, in any arrival order, one non-empty
fragment for each of the 7 (pairwise different) calendar days starting
tomorrow, `sortSchedule` returns after the 7 days of the window with exactly
the fragments concatenated in calendar-day order, each fragment's games in
their original order. -/
theorem sortSchedule_window_order (cal : Nat → String) (frag : Nat → List Game)
    (dates : List (List Game))
    (hdays : (windowDays.map cal).Nodup)
    (hfrag : ∀ d ∈ windowDays, IsFragmentOf (cal d) (frag d))
    (harrival : dates.Perm (windowDays.map frag))
    (fuel : Nat) (hfuel : 7 ≤ fuel) :
    sortSchedule cal dates [] fuel
      = Outcome.returned
          (frag 1 ++ frag 2 ++ frag 3 ++ frag 4 ++ frag 5 ++ frag 6 ++ frag 7) := by
  obtain ⟨m, rfl⟩ : ∃ m, fuel = m + 7 := ⟨fuel - 7, by omega⟩
  have hf := findFragment_window cal frag dates hdays hfrag harrival
  unfold sortSchedule
  rw [show m + 7 = (m + 6) + 1 from rfl,
    sortLoop_step cal dates (m + 6) 0 0 _ _ (by omega) (hf 1 (by decide)),
    show m + 6 = (m + 5) + 1 from rfl,
    sortLoop_step cal dates (m + 5) 1 1 _ _ (by omega) (hf 2 (by decide)),
    show m + 5 = (m + 4) + 1 from rfl,
    sortLoop_step cal dates (m + 4) 2 2 _ _ (by omega) (hf 3 (by decide)),
    show m + 4 = (m + 3) + 1 from rfl,
    sortLoop_step cal dates (m + 3) 3 3 _ _ (by omega) (hf 4 (by decide)),
    show m + 3 = (m + 2) + 1 from rfl,
    sortLoop_step cal dates (m + 2) 4 4 _ _ (by omega) (hf 5 (by decide)),
    show m + 2 = (m + 1) + 1 from rfl,
    sortLoop_step cal dates (m + 1) 5 5 _ _ (by omega) (hf 6 (by decide)),
    sortLoop_step cal dates m 6 6 _ _ (by omega) (hf 7 (by decide)),
    sortLoop_done cal dates m 7 7 _ (by omega)]
  simp

theorem weekFragment_isFragment :
    ∀ d ∈ windowDays, IsFragmentOf (offSeasonCal d) (weekFragment d) := by
  intro d hd
  simp only [windowDays, List.mem_cons, List.mem_singleton, List.not_mem_nil, or_false] at hd
  rcases hd with rfl | rfl | rfl | rfl | rfl | rfl | rfl <;>
    exact ⟨_, _, rfl, by decide⟩

/-- Witness of C3: the seven fragments of the week after 2017-09-28, stored in
a scrambled arrival order. -/
theorem sortSchedule_window_order_witness :
    sortSchedule offSeasonCal weekArrival [] 7
      = Outcome.returned
          (weekFragment 1 ++ weekFragment 2 ++ weekFragment 3 ++ weekFragment 4
            ++ weekFragment 5 ++ weekFragment 6 ++ weekFragment 7) :=
  sortSchedule_window_order offSeasonCal weekFragment weekArrival (by decide)
    weekFragment_isFragment (by decide) 7 (le_refl 7)

theorem findFragment_eq_find (key : String) (dates : List (List Game))
    (hne : ∀ fr ∈ dates, fr ≠ []) :
    findFragment key dates
      = Outcome.returned (dates.find? (fun fr => decide (fragmentKey fr = some key))) := by
  induction dates with
  | nil => rfl
  | cons fr rest ih =>
    have ih' := ih (fun x h => hne x (List.mem_cons_of_mem _ h))
    cases fr with
    | nil => exact absurd rfl (hne [] (List.mem_cons_self _ _))
    | cons g gs =>
      by_cases hk : dayKey g = key
      · simp [findFragment, fragmentKey, hk]
      · simp [findFragment, fragmentKey, hk, ih']

theorem find_perm_of_unique {α : Type} (p : α → Bool) (l₁ l₂ : List α)
    (hperm : l₁.Perm l₂)
    (huniq : ∀ a ∈ l₁, ∀ b ∈ l₁, p a = true → p b = true → a = b) :
    l₁.find? p = l₂.find? p := by
  cases h1 : l₁.find? p with
  | none =>
    symm
    rw [List.find?_eq_none] at h1 ⊢
    intro x hx
    exact h1 x (hperm.mem_iff.2 hx)
  | some a =>
    have ha : p a = true := List.find?_some h1
    have hmem : a ∈ l₁ := List.mem_of_find?_eq_some h1
    cases h2 : l₂.find? p with
    | none =>
      rw [List.find?_eq_none] at h2
      exact absurd ha (h2 a (hperm.mem_iff.1 hmem))
    | some b =>
      have hb : p b = true := List.find?_some h2
      have hmemb : b ∈ l₁ := hperm.mem_iff.2 (List.mem_of_find?_eq_some h2)
      rw [huniq a hmem b hmemb ha hb]

theorem findFragment_perm (key : String) (d₁ d₂ : List (List Game))
    (hperm : d₁.Perm d₂)
    (hne : ∀ fr ∈ d₁, fr ≠ [])
    (hkeys : (d₁.map fragmentKey).Nodup) :
    findFragment key d₁ = findFragment key d₂ := by
  rw [findFragment_eq_find key d₁ hne,
    findFragment_eq_find key d₂ (fun fr h => hne fr (hperm.mem_iff.2 h))]
  congr 1
  apply find_perm_of_unique _ _ _ hperm
  intro a ha b hb hpa hpb
  apply List.inj_on_of_nodup_map hkeys ha hb
  rw [of_decide_eq_true hpa, of_decide_eq_true hpb]

theorem sortLoop_perm (cal : Nat → String) (d₁ d₂ : List (List Game))
    (h : ∀ key, findFragment key d₁ = findFragment key d₂) (fuel : Nat) :
    ∀ day dp s, sortLoop cal d₁ fuel day dp s = sortLoop cal d₂ fuel day dp s := by
  induction fuel with
  | zero => intro day dp s; simp only [sortLoop]
  | succ n ih =>
    intro day dp s
    simp only [sortLoop, h, ih]

/-- C4 (amended): when the stored fragments are non-empty and no two of them
carry the same month-day key, `sortSchedule` has the same outcome (the same
merged sequence, after the same number of days) for every order in which the
fragments are stored. -/
theorem sortSchedule_arrival_order (cal : Nat → String) (d₁ d₂ : List (List Game))
    (hperm : d₁.Perm d₂)
    (hne : ∀ fr ∈ d₁, fr ≠ [])
    (hkeys : (d₁.map fragmentKey).Nodup)
    (mlbSchedule : List Game) (fuel : Nat) :
    sortSchedule cal d₁ mlbSchedule fuel = sortSchedule cal d₂ mlbSchedule fuel :=
  sortLoop_perm cal d₁ d₂ (fun key => findFragment_perm key d₁ d₂ hperm hne hkeys) fuel 0 0 _

/-- Witness of C4 (amended): a week of fragments and the same fragments in
reverse order. -/
theorem sortSchedule_arrival_order_witness :
    sortSchedule offSeasonCal weekArrival [] 7
      = sortSchedule offSeasonCal weekArrival.reverse [] 7 :=
  sortSchedule_arrival_order offSeasonCal weekArrival weekArrival.reverse
    (List.reverse_perm weekArrival).symm (by decide) (by decide) [] 7

/-- C4 (counterexample): two fragments filed under the same month-day
(`09-29` of two different years). Stored in one order the merge starts with
the 2016 game, stored in another order it starts with the 2017 games. -/
theorem sortSchedule_arrival_order_counterexample :
    (lastYearFragment :: weekArrival).Perm (weekArrival ++ [lastYearFragment])
    ∧ sortSchedule offSeasonCal (lastYearFragment :: weekArrival) [] 7
      = Outcome.returned
          (lastYearFragment ++ weekFragment 2 ++ weekFragment 3 ++ weekFragment 4
            ++ weekFragment 5 ++ weekFragment 6 ++ weekFragment 7)
    ∧ sortSchedule offSeasonCal (weekArrival ++ [lastYearFragment]) [] 7
      = Outcome.returned
          (weekFragment 1 ++ weekFragment 2 ++ weekFragment 3 ++ weekFragment 4
            ++ weekFragment 5 ++ weekFragment 6 ++ weekFragment 7)
    ∧ sortSchedule offSeasonCal (lastYearFragment :: weekArrival) [] 7
      ≠ sortSchedule offSeasonCal (weekArrival ++ [lastYearFragment]) [] 7 := by
  refine ⟨?_, by decide, by decide, by decide⟩
  exact (List.perm_append_singleton _ _).symm

set_option maxRecDepth 1000000 in
set_option maxHeartbeats 4000000 in
/-- C5 (code bug, evaluated): with fragments for only 3 of the 7 window days
`sortSchedule` has not returned after the 7 days of the window; it walks on
until the same month-days come round in later years and returns on day 731
with 7 day-blocks, every fragment appended two or three times. -/
theorem sortSchedule_season_end_repeats :
    seasonEnd.length = 3
    ∧ sortSchedule offSeasonCal seasonEnd [] 7 = Outcome.running
    ∧ sortSchedule offSeasonCal seasonEnd [] 731
      = Outcome.returned
          (weekFragment 1 ++ weekFragment 2 ++ weekFragment 3
            ++ weekFragment 1 ++ weekFragment 2 ++ weekFragment 3 ++ weekFragment 1) := by
  decide

theorem sortLoop_no_fragments (cal : Nat → String) (fuel : Nat) :
    ∀ (day dp : Nat) (s : List Game), dp < 7 →
      sortLoop cal [] fuel day dp s = Outcome.running := by
  induction fuel with
  | zero =>
    intro day dp s hdp
    simp only [sortLoop, if_pos hdp]
  | succ n ih =>
    intro day dp s hdp
    rw [sortLoop_skip cal [] n day dp s hdp rfl]
    exact ih (day + 1) dp s hdp

set_option maxRecDepth 1000000 in
set_option maxHeartbeats 4000000 in
/-- C11 (code bug, evaluated): after a week of day responses without a game
`mlbScheduleDates` is empty and `sortSchedule` never returns, whatever the
calendar and however many days it is allowed to walk; with one day of the
window without games it has not returned after the 7 window days, walks a
whole year and returns on day 366, when the first month-day comes round again. -/
theorem sortSchedule_no_games_never_returns :
    collectSchedules noGamesWeek = []
    ∧ (∀ (cal : Nat → String) (mlbSchedule : List Game) (fuel : Nat),
        sortSchedule cal (collectSchedules noGamesWeek) mlbSchedule fuel = Outcome.running)
    ∧ (collectSchedules offDayWeek).length = 6
    ∧ sortSchedule offSeasonCal (collectSchedules offDayWeek) [] 7 = Outcome.running
    ∧ sortSchedule offSeasonCal (collectSchedules offDayWeek) [] 365 = Outcome.running
    ∧ sortSchedule offSeasonCal (collectSchedules offDayWeek) [] 366
      = Outcome.returned
          (weekFragment 1 ++ weekFragment 2 ++ weekFragment 3 ++ weekFragment 5
            ++ weekFragment 6 ++ weekFragment 7 ++ weekFragment 1) := by
  have h0 : collectSchedules noGamesWeek = [] := by decide
  refine ⟨h0, ?_, by decide, by decide, by decide, by decide⟩
  intro cal mlbSchedule fuel
  rw [h0]
  exact sortLoop_no_fragments cal fuel 0 0 mlbSchedule (by omega)

/-! ## Properties of `getUpcomingSchedule` -/


theorem string_append_empty (s : String) : s ++ "" = s := by
  apply String.ext; simp

theorem string_append_assoc (a b c : String) : a ++ b ++ c = a ++ (b ++ c) := by
  apply String.ext; simp

theorem string_append_newline_ne (s : String) : s ++ "\n" ≠ "" := by
  intro h
  have := congrArg String.length h
  simp only [String.length_append] at this
  have h2 : ("\n" : String).length = 1 := by decide
  have h3 : ("" : String).length = 0 := by decide
  omega

theorem gameLine_ne_iff (teamKey : String) (g : Game) :
    gameLine teamKey g ≠ "" ↔ (g.AwayTeam = teamKey ∨ g.HomeTeam = teamKey) := by
  unfold gameLine
  split_ifs with h1 h2
  · exact ⟨fun _ => Or.inl h1, fun _ => string_append_newline_ne _⟩
  · exact ⟨fun _ => Or.inr h2, fun _ => string_append_newline_ne _⟩
  · simp [h1, h2]

theorem scanDay_eq_find (key teamKey : String) (sched : List Game) :
    scanDay key teamKey sched
      = (sched.find? (playsOn key teamKey)).map (gameLine teamKey) := by
  induction sched with
  | nil => rfl
  | cons g rest ih =>
    by_cases hk : dayKey g = key
    · by_cases hp : g.AwayTeam = teamKey ∨ g.HomeTeam = teamKey
      · have hne := (gameLine_ne_iff teamKey g).2 hp
        have hplays : playsOn key teamKey g = true := by
          simp only [playsOn, hk, decide_True, Bool.true_and, Bool.or_eq_true,
            decide_eq_true_eq]
          exact hp
        simp only [scanDay, if_pos hk, if_pos hne, List.find?_cons, hplays, Option.map_some']
      · have hne : ¬ gameLine teamKey g ≠ "" := fun h => hp ((gameLine_ne_iff teamKey g).1 h)
        have hplays : playsOn key teamKey g = false := by
          simp only [playsOn, hk, decide_True, Bool.true_and, Bool.or_eq_false_iff,
            decide_eq_false_iff_not]
          exact ⟨fun h => hp (Or.inl h), fun h => hp (Or.inr h)⟩
        simp only [scanDay, if_pos hk, if_neg hne, List.find?_cons, hplays, ih]
    · have hplays : playsOn key teamKey g = false := by
        simp [playsOn, hk]
      simp only [scanDay, if_neg hk, List.find?_cons, hplays, ih]

theorem upcomingLoop_spec (cal : Nat → String) (teamKey : String) (sched : List Game)
    (n : Nat) :
    ∀ (fuel dayCtr gameCount : Nat) (s : String),
      dayCtr + n = 7 → 0 < n → gameCount < 5 → n ≤ fuel →
      upcomingLoop cal teamKey sched fuel dayCtr gameCount s
        = Outcome.returned (s ++ concatLines
            (((List.range' (dayCtr + 1) n).filterMap
              (fun d => scanDay (cal d) teamKey sched)).take (5 - gameCount))) := by
  induction n with
  | zero => intro _ _ _ _ _ h; omega
  | succ n ih =>
    intro fuel dayCtr gameCount s hsum _ hgc hfuel
    obtain ⟨fuel, rfl⟩ : ∃ f, fuel = f + 1 := ⟨fuel - 1, by omega⟩
    obtain ⟨k, hk⟩ : ∃ k, 5 - gameCount = k + 1 := ⟨4 - gameCount, by omega⟩
    cases hscan : scanDay (cal (dayCtr + 1)) teamKey sched with
    | none =>
      by_cases hlast : dayCtr + 1 = 7
      · have hn : n = 0 := by omega
        subst hn
        simp only [upcomingLoop, hscan, if_pos hlast, List.range', List.filterMap_cons,
          List.filterMap_nil, List.take_nil, concatLines, List.foldr_nil, string_append_empty]
      · have := ih fuel (dayCtr + 1) gameCount s (by omega) (by omega) hgc (by omega)
        simp only [upcomingLoop, hscan, if_neg hlast, this, List.range', List.filterMap_cons]
    | some line =>
      by_cases hstop : gameCount + 1 = 5 ∨ dayCtr + 1 = 7
      · simp only [upcomingLoop, hscan, if_pos hstop, List.range', List.filterMap_cons, hk,
          List.take_succ_cons]
        rcases hstop with h | h
        · have hk0 : k = 0 := by omega
          subst hk0
          simp only [List.take_zero, concatLines, List.foldr_cons, List.foldr_nil,
            string_append_empty]
        · have hn : n = 0 := by omega
          subst hn
          simp only [List.range', List.filterMap_nil, List.take_nil, concatLines,
            List.foldr_cons, List.foldr_nil, string_append_empty]
      · have hgc' : gameCount + 1 < 5 := by omega
        have := ih fuel (dayCtr + 1) (gameCount + 1) (s ++ line) (by omega) (by omega) hgc'
          (by omega)
        have hk' : 5 - (gameCount + 1) = k := by omega
        simp only [upcomingLoop, hscan, if_neg hstop, this, List.range', List.filterMap_cons,
          hk, hk', List.take_succ_cons, concatLines, List.foldr_cons, string_append_assoc]

theorem upcomingLines_length (cal : Nat → String) (teamKey : String) (sched : List Game) :
    (upcomingLines cal teamKey sched).length = min 5 (playDays cal teamKey sched) := by
  unfold upcomingLines playDays
  rw [List.length_take, length_filterMap_eq_filter]
  congr 2
  apply List.filter_congr
  intro d _
  cases h : List.find? (playsOn (cal d) teamKey) sched with
  | none =>
    simp only [Option.map_none', Option.isSome_none]
    symm
    rw [List.find?_eq_none] at h
    rw [Bool.eq_false_iff]
    intro hany
    obtain ⟨x, hx, hp⟩ := List.any_eq_true.1 hany
    exact h x hx hp
  | some g =>
    simp only [Option.map_some', Option.isSome_some]
    symm
    exact List.any_eq_true.2 ⟨g, List.mem_of_find?_eq_some h, List.find?_some h⟩

/-- C6: for a team whose key resolves, `getUpcomingSchedule` returns within the
7 days starting tomorrow; what it returns is the header followed, in day
order, by the line of the first game of each window day in which the team is
home or away, cut after 5 lines; the number of lines is
`min 5 (number of window days on which the team plays)`, never more than 5. -/
theorem getUpcomingSchedule_lines (cal : Nat → String) (teams : List Team)
    (mlbSchedule : List Game) (team : String) (fuel : Nat)
    (hkey : findTeamKey team teams ≠ "") (hfuel : 7 ≤ fuel) :
    getUpcomingSchedule cal (some teams) mlbSchedule team fuel
      = Outcome.returned (JsVal.str ("Upcoming schedule for the " ++ team ++ ":\n"
          ++ concatLines (upcomingLines cal (findTeamKey team teams) mlbSchedule)))
    ∧ (upcomingLines cal (findTeamKey team teams) mlbSchedule).length
      = min 5 (playDays cal (findTeamKey team teams) mlbSchedule)
    ∧ (upcomingLines cal (findTeamKey team teams) mlbSchedule).length ≤ 5 := by
  refine ⟨?_, upcomingLines_length _ _ _, ?_⟩
  · have h := upcomingLoop_spec cal (findTeamKey team teams) mlbSchedule 7 fuel 0 0
      ("Upcoming schedule for the " ++ team ++ ":\n") rfl (by omega) (by omega) hfuel
    simp only [getUpcomingSchedule, if_pos hkey, h]
    congr 4
    simp only [upcomingLines, windowDays, scanDay_eq_find]
    rfl
  · rw [upcomingLines_length]
    exact Nat.min_le_left _ _


/-- Witness of C6: in the week after 2017-09-28 the Red Sox play on 3 window
days and get a 3-game list; the Yankees play on 6 and get 5 lines. -/
theorem getUpcomingSchedule_lines_witness :
    playDays offSeasonCal "BOS" weekSchedule = 3
    ∧ getUpcomingSchedule offSeasonCal (some someTeams) weekSchedule "Boston Red Sox" 7
      = Outcome.returned (JsVal.str ("Upcoming schedule for the Boston Red Sox:\n"
          ++ "09-29 19:05 vs. HOU\n" ++ "09-30 19:05 vs. HOU\n" ++ "10-01 19:05 vs. HOU\n"))
    ∧ playDays offSeasonCal "NYY" weekSchedule = 6
    ∧ (upcomingLines offSeasonCal (findTeamKey "New York Yankees" someTeams)
        weekSchedule).length = 5 := by
  have hb := getUpcomingSchedule_lines offSeasonCal someTeams weekSchedule "Boston Red Sox" 7
    (by decide) (le_refl 7)
  have hn := getUpcomingSchedule_lines offSeasonCal someTeams weekSchedule "New York Yankees" 7
    (by decide) (le_refl 7)
  refine ⟨by decide, ?_, by decide, ?_⟩
  · rw [hb.1]
    decide
  · rw [hn.2.1]
    decide

/-- C8 (code bug, evaluated): when no team name occurs in the team string (or
the team data is missing or empty) `getUpcomingSchedule` returns `undefined`,
not the message `No schedule data found for <team>`; with a resolved team and
an empty merged schedule it returns the bare header. -/
theorem getUpcomingSchedule_unresolved_returns_undefined :
    findTeamKey "Cubs" someTeams = ""
    ∧ getUpcomingSchedule offSeasonCal (some someTeams) weekSchedule "Cubs" 7
      = Outcome.returned JsVal.undefined
    ∧ (∀ (cal : Nat → String) (sched : List Game) (team : String) (fuel : Nat),
        getUpcomingSchedule cal none sched team fuel = Outcome.returned JsVal.undefined)
    ∧ (∀ (cal : Nat → String) (sched : List Game) (team : String) (fuel : Nat),
        getUpcomingSchedule cal (some []) sched team fuel = Outcome.returned JsVal.undefined)
    ∧ getUpcomingSchedule offSeasonCal (some someTeams) [] "Red Sox" 7
      = Outcome.returned (JsVal.str "Upcoming schedule for the Red Sox:\n") := by
  refine ⟨by decide, by decide, ?_, ?_, by decide⟩
  · intro cal sched team fuel
    simp [getUpcomingSchedule]
  · intro cal sched team fuel
    simp [getUpcomingSchedule, findTeamKey]

/-! ## Properties of the readiness barrier -/

theorem runInit_snoc (order : List Feed) (f : Feed) :
    runInit (order ++ [f]) = complete (runInit order) f := by
  simp [runInit, List.foldl_append]

theorem runInit_invariant (order : List Feed) :
    (runInit order).mlbTeamsRetrieved = decide (Feed.teams ∈ order)
    ∧ (runInit order).mlbStandingsRetrieved = decide (Feed.standings ∈ order)
    ∧ (runInit order).mlbScheduleRetrieved = decide (Feed.schedule ∈ order)
    ∧ ((runInit order).allRetrieved = false →
        (runInit order).micStarts = 0 ∧ (runInit order).conversations = 0) := by
  induction order using List.reverseRecOn with
  | nil => decide
  | append_singleton order f ih =>
    obtain ⟨h1, h2, h3, h4⟩ := ih
    rw [runInit_snoc]
    generalize runInit order = s at h1 h2 h3 h4
    obtain ⟨a, b, c, m, n⟩ := s
    simp only at h1 h2 h3
    subst h1 h2 h3
    cases f <;>
      by_cases ht : Feed.teams ∈ order <;>
      by_cases hs : Feed.standings ∈ order <;>
      by_cases hc : Feed.schedule ∈ order <;>
      simp_all [complete, startConversationIfReady, Ready.allRetrieved]

/-- C7: `startConversationIfReady` changes nothing unless all three flags are
set, and starts the microphone and the conversation once when they are; over
the three feed completions of `init`, in any order, the conversation is started
exactly once; while some feed has not completed it is not started. -/
theorem startConversation_exactly_once :
    (∀ s : Ready, s.allRetrieved = false → startConversationIfReady s = s)
    ∧ (∀ s : Ready, s.allRetrieved = true →
        startConversationIfReady s
          = { s with micStarts := s.micStarts + 1, conversations := s.conversations + 1 })
    ∧ (∀ order : List Feed, order.Perm [Feed.teams, Feed.standings, Feed.schedule] →
        (runInit order).micStarts = 1 ∧ (runInit order).conversations = 1)
    ∧ (∀ (order : List Feed) (f : Feed), f ∉ order →
        (runInit order).micStarts = 0 ∧ (runInit order).conversations = 0) := by
  refine ⟨?_, ?_, ?_, ?_⟩
  · intro s h
    simp only [Ready.allRetrieved] at h
    simp [startConversationIfReady, h]
  · intro s h
    simp only [Ready.allRetrieved] at h
    simp [startConversationIfReady, h]
  · intro order h
    have hlen := h.length_eq
    have hnd : order.Nodup := h.nodup_iff.2 (by decide)
    rcases order with _ | ⟨a, _ | ⟨b, _ | ⟨c, _ | ⟨d, rest⟩⟩⟩⟩
    · simp at hlen
    · simp at hlen
    · simp at hlen
    · cases a <;> cases b <;> cases c <;>
        first
        | exact absurd hnd (by decide)
        | decide
    · simp at hlen
  · intro order f hf
    obtain ⟨h1, h2, h3, h4⟩ := runInit_invariant order
    apply h4
    simp only [Ready.allRetrieved, h1, h2, h3]
    cases f <;> simp [hf]

/-- Witness of C7: schedule, teams, standings complete in that order; nothing
starts after two completions, one start after the third. -/
theorem startConversation_exactly_once_witness :
    (runInit [Feed.schedule, Feed.teams]).conversations = 0
    ∧ (runInit [Feed.schedule, Feed.teams, Feed.standings]).conversations = 1 :=
  ⟨(startConversation_exactly_once.2.2.2 [Feed.schedule, Feed.teams] Feed.standings
      (by decide)).2,
    (startConversation_exactly_once.2.2.1 [Feed.schedule, Feed.teams, Feed.standings]
      (by decide)).2⟩

/-! ## Properties of the stage checks -/

/-- C10 (code bug, evaluated): for a context whose `system` object has no
`dialog_stack` the three stage checks throw a `TypeError` instead of returning
`false`. Where the stack is present its first element selects exactly the
corresponding check, and a missing context, a missing `system` or an empty
stack make all three checks `false`. -/
theorem stageChecks_absent_stack_throws :
    validateTeamStep contextWithoutStack = Outcome.threw "TypeError"
    ∧ validateEmotionStep contextWithoutStack = Outcome.threw "TypeError"
    ∧ textTeamInfoStep contextWithoutStack = Outcome.threw "TypeError"
    ∧ selectStage contextWithoutStack = Outcome.threw "TypeError"
    ∧ (∀ rest : List String,
        validateTeamStep (contextWithStack ("Validate Team" :: rest)) = Outcome.returned true
        ∧ validateEmotionStep (contextWithStack ("Validate Team" :: rest))
          = Outcome.returned false
        ∧ textTeamInfoStep (contextWithStack ("Validate Team" :: rest))
          = Outcome.returned false
        ∧ selectStage (contextWithStack ("Validate Team" :: rest))
          = Outcome.returned Stage.validateTeam)
    ∧ (∀ rest : List String,
        validateTeamStep (contextWithStack ("Validate Emotion" :: rest))
          = Outcome.returned false
        ∧ validateEmotionStep (contextWithStack ("Validate Emotion" :: rest))
          = Outcome.returned true
        ∧ textTeamInfoStep (contextWithStack ("Validate Emotion" :: rest))
          = Outcome.returned false
        ∧ selectStage (contextWithStack ("Validate Emotion" :: rest))
          = Outcome.returned Stage.validateEmotion)
    ∧ (∀ rest : List String,
        validateTeamStep (contextWithStack ("Text Team Info" :: rest)) = Outcome.returned false
        ∧ validateEmotionStep (contextWithStack ("Text Team Info" :: rest))
          = Outcome.returned false
        ∧ textTeamInfoStep (contextWithStack ("Text Team Info" :: rest))
          = Outcome.returned true
        ∧ selectStage (contextWithStack ("Text Team Info" :: rest))
          = Outcome.returned Stage.textTeamInfo)
    ∧ (∀ ctx ∈ [none, contextWithoutSystem, contextWithStack []],
        validateTeamStep ctx = Outcome.returned false
        ∧ validateEmotionStep ctx = Outcome.returned false
        ∧ textTeamInfoStep ctx = Outcome.returned false
        ∧ selectStage ctx = Outcome.returned Stage.none) := by
  refine ⟨by decide, by decide, by decide, by decide, ?_, ?_, ?_, by decide⟩ <;>
    intro rest <;> refine ⟨?_, ?_, ?_, ?_⟩ <;> rfl

end SportsBuddy
